import Mathlib

/-!
Verification of the ingestion-and-normalization core of `spotify_tool.py`.

The Python source is shallowly embedded:
* JSON values decoded by `json.loads` are the inductive `JVal`; Python's
  truthiness, `dict.get`, `or`, and `int(...)` coercion are modelled by
  `truthy`, `pyGet`, `pyOr`, `pyInt` (an `int(...)` call that raises is an
  `Except.error`).
* `datetime` objects are modelled by wall-clock seconds plus an optional
  UTC offset in seconds; `dateutil.tz.gettz "Europe/Paris"` is modelled by
  explicit offset functions implementing the CET/CEST rules (last Sunday of
  March to last Sunday of October).  `dateutil.parser.parse` and
  `dateutil.parser.isoparse` are modelled on the ISO-like textual formats the
  repository's data uses; unmodelled textual formats are mapped to a parse
  failure, exactly as a string such as "garbage" fails in both parsers.
* Python exceptions escaping a function are `Except.error`; a function that
  cannot raise returns plainly.
-/

namespace SpotifyTool

/-- A decoded JSON value (`json.loads` output).  JSON numbers are modelled as
integers; object fields are an association list where, as in `json.loads`,
a repeated key is resolved to its last occurrence. -/
inductive JVal where
  | null : JVal
  | bool (b : Bool) : JVal
  | int (n : Int) : JVal
  | str (s : String) : JVal
  | arr (xs : List JVal) : JVal
  | obj (fs : List (String × JVal)) : JVal

mutual

/-- Boolean equality on JSON values (nested recursion, spelled out because
`deriving DecidableEq` does not handle the nesting through `List`). -/
def jvalBEq : JVal → JVal → Bool
  | .null, .null => true
  | .bool a, .bool b => a == b
  | .int a, .int b => a == b
  | .str a, .str b => a == b
  | .arr xs, .arr ys => jlistBEq xs ys
  | .obj fs, .obj gs => jobjBEq fs gs
  | _, _ => false

/-- Boolean equality on JSON arrays. -/
def jlistBEq : List JVal → List JVal → Bool
  | [], [] => true
  | x :: xs, y :: ys => jvalBEq x y && jlistBEq xs ys
  | _, _ => false

/-- Boolean equality on JSON object field lists. -/
def jobjBEq : List (String × JVal) → List (String × JVal) → Bool
  | [], [] => true
  | (k, v) :: fs, (l, w) :: gs => k == l && jvalBEq v w && jobjBEq fs gs
  | _, _ => false

end

mutual

theorem jvalBEq_refl : ∀ a : JVal, jvalBEq a a = true
  | .null => rfl
  | .bool b => by simp [jvalBEq]
  | .int n => by simp [jvalBEq]
  | .str s => by simp [jvalBEq]
  | .arr xs => by simp [jvalBEq, jlistBEq_refl xs]
  | .obj fs => by simp [jvalBEq, jobjBEq_refl fs]

theorem jlistBEq_refl : ∀ xs : List JVal, jlistBEq xs xs = true
  | [] => rfl
  | x :: xs => by simp [jlistBEq, jvalBEq_refl x, jlistBEq_refl xs]

theorem jobjBEq_refl : ∀ fs : List (String × JVal), jobjBEq fs fs = true
  | [] => rfl
  | (k, v) :: fs => by simp [jobjBEq, jvalBEq_refl v, jobjBEq_refl fs]

end

mutual

theorem jvalBEq_eq : ∀ a b : JVal, jvalBEq a b = true → a = b
  | .null, .null, _ => rfl
  | .bool a, .bool b, h => by simp [jvalBEq] at h; rw [h]
  | .int a, .int b, h => by simp [jvalBEq] at h; rw [h]
  | .str a, .str b, h => by simp [jvalBEq] at h; rw [h]
  | .arr xs, .arr ys, h => by rw [jlistBEq_eq xs ys (by simpa [jvalBEq] using h)]
  | .obj fs, .obj gs, h => by rw [jobjBEq_eq fs gs (by simpa [jvalBEq] using h)]
  | .null, .bool _, h => by simp [jvalBEq] at h
  | .null, .int _, h => by simp [jvalBEq] at h
  | .null, .str _, h => by simp [jvalBEq] at h
  | .null, .arr _, h => by simp [jvalBEq] at h
  | .null, .obj _, h => by simp [jvalBEq] at h
  | .bool _, .null, h => by simp [jvalBEq] at h
  | .bool _, .int _, h => by simp [jvalBEq] at h
  | .bool _, .str _, h => by simp [jvalBEq] at h
  | .bool _, .arr _, h => by simp [jvalBEq] at h
  | .bool _, .obj _, h => by simp [jvalBEq] at h
  | .int _, .null, h => by simp [jvalBEq] at h
  | .int _, .bool _, h => by simp [jvalBEq] at h
  | .int _, .str _, h => by simp [jvalBEq] at h
  | .int _, .arr _, h => by simp [jvalBEq] at h
  | .int _, .obj _, h => by simp [jvalBEq] at h
  | .str _, .null, h => by simp [jvalBEq] at h
  | .str _, .bool _, h => by simp [jvalBEq] at h
  | .str _, .int _, h => by simp [jvalBEq] at h
  | .str _, .arr _, h => by simp [jvalBEq] at h
  | .str _, .obj _, h => by simp [jvalBEq] at h
  | .arr _, .null, h => by simp [jvalBEq] at h
  | .arr _, .bool _, h => by simp [jvalBEq] at h
  | .arr _, .int _, h => by simp [jvalBEq] at h
  | .arr _, .str _, h => by simp [jvalBEq] at h
  | .arr _, .obj _, h => by simp [jvalBEq] at h
  | .obj _, .null, h => by simp [jvalBEq] at h
  | .obj _, .bool _, h => by simp [jvalBEq] at h
  | .obj _, .int _, h => by simp [jvalBEq] at h
  | .obj _, .str _, h => by simp [jvalBEq] at h
  | .obj _, .arr _, h => by simp [jvalBEq] at h

theorem jlistBEq_eq : ∀ xs ys : List JVal, jlistBEq xs ys = true → xs = ys
  | [], [], _ => rfl
  | x :: xs, y :: ys, h => by
    simp only [jlistBEq, Bool.and_eq_true] at h
    rw [jvalBEq_eq x y h.1, jlistBEq_eq xs ys h.2]
  | [], _ :: _, h => by simp [jlistBEq] at h
  | _ :: _, [], h => by simp [jlistBEq] at h

theorem jobjBEq_eq : ∀ fs gs : List (String × JVal), jobjBEq fs gs = true → fs = gs
  | [], [], _ => rfl
  | (k, v) :: fs, (l, w) :: gs, h => by
    simp only [jobjBEq, Bool.and_eq_true, beq_iff_eq] at h
    rw [h.1.1, jvalBEq_eq v w h.1.2, jobjBEq_eq fs gs h.2]
  | [], _ :: _, h => by simp [jobjBEq] at h
  | _ :: _, [], h => by simp [jobjBEq] at h

end

instance : DecidableEq JVal := fun a b =>
  decidable_of_iff (jvalBEq a b = true)
    ⟨jvalBEq_eq a b, fun h => h ▸ jvalBEq_refl a⟩

instance {ε α : Type} [DecidableEq ε] [DecidableEq α] : DecidableEq (Except ε α) :=
  fun a b =>
    match a, b with
    | .error e, .error f =>
      if h : e = f then .isTrue (by rw [h]) else .isFalse (by simp [h])
    | .ok x, .ok y =>
      if h : x = y then .isTrue (by rw [h]) else .isFalse (by simp [h])
    | .error _, .ok _ => .isFalse (by simp)
    | .ok _, .error _ => .isFalse (by simp)

/-- Last-occurrence lookup of a key in a JSON object's field list
(`json.loads` keeps the last duplicate key). -/
def lookupField (fs : List (String × JVal)) (k : String) : Option JVal :=
  fs.foldl (fun acc p => if p.1 = k then some p.2 else acc) none

/-- Python `k in obj` for a decoded JSON object. -/
def hasKey (v : JVal) (k : String) : Bool :=
  match v with
  | .obj fs => (lookupField fs k).isSome
  | _ => false

/-- Python `obj.get(k)` (and `obj[k]` when the key is present): a missing key
and a JSON `null` value both come back as Python `None`, i.e. `JVal.null`. -/
def pyGet (v : JVal) (k : String) : JVal :=
  match v with
  | .obj fs => (lookupField fs k).getD .null
  | _ => .null

/-- Python truthiness of a decoded JSON value. -/
def truthy : JVal → Bool
  | .null => false
  | .bool b => b
  | .int n => n != 0
  | .str s => s != ""
  | .arr xs => !xs.isEmpty
  | .obj fs => !fs.isEmpty

/-- Python `a or b`. -/
def pyOr (a b : JVal) : JVal :=
  if truthy a then a else b

/-- Python `int(x)` on a decoded JSON value.  `int` of an integer is itself,
of a bool is 0/1, of a string is the parsed integer literal; anything else
(or an unparseable string) raises, which is modelled as `Except.error`. -/
def pyInt : JVal → Except String Int
  | .int n => .ok n
  | .bool b => .ok (if b then 1 else 0)
  | .str s =>
    match s.toInt? with
    | some n => .ok n
    | none => .error "ValueError: invalid literal for int()"
  | _ => .error "TypeError: int() argument"

/-! ## Calendar arithmetic (environment model)

Days are counted from 1970-01-01; the conversions below are the standard
civil-calendar algorithms, meaningful for modern (positive-era) dates, which
is the domain the tool's data lives in. -/

/-- Day count of a Gregorian civil date (1970-01-01 is day 0). -/
def daysFromCivil (y m d : Int) : Int :=
  let y' := if m ≤ 2 then y - 1 else y
  let era := (if 0 ≤ y' then y' else y' - 399) / 400
  let yoe := y' - era * 400
  let mp := (m + 9) % 12
  let doy := (153 * mp + 2) / 5 + d - 1
  let doe := yoe * 365 + yoe / 4 - yoe / 100 + doy
  era * 146097 + doe - 719468

/-- Civil date (year, month, day) of a day count. -/
def civilFromDays (z0 : Int) : Int × Int × Int :=
  let z := z0 + 719468
  let era := (if 0 ≤ z then z else z - 146096) / 146097
  let doe := z - era * 146097
  let yoe := (doe - doe / 1460 + doe / 36524 - doe / 146096) / 365
  let y := yoe + era * 400
  let doy := doe - (365 * yoe + yoe / 4 - yoe / 100)
  let mp := (5 * doy + 2) / 153
  let d := doy - (153 * mp + 2) / 5 + 1
  let m := mp + (if mp < 10 then 3 else -9)
  (y + (if m ≤ 2 then 1 else 0), m, d)

/-- Day count of the last Sunday of a 31-day month (used for March and
October, the CET/CEST transition months). -/
def lastSundayZ (y m : Int) : Int :=
  let lastZ := daysFromCivil y m 31
  lastZ - ((lastZ + 4) % 7)

/-! ## Timezone model for `tz.gettz("Europe/Paris")`

An instant is seconds since 1970-01-01T00:00:00Z.  Paris is UTC+1 (CET)
outside daylight-saving time and UTC+2 (CEST) inside it; DST runs from
01:00 UTC on the last Sunday of March to 01:00 UTC on the last Sunday of
October (equivalently 03:00 wall clock at both transitions, which is the
offset a `fold=0` wall-clock reading receives). -/

/-- Is a UTC instant inside the Paris daylight-saving window? -/
def parisDSTutc (t : Int) : Bool :=
  let y := (civilFromDays (Int.fdiv t 86400)).1
  decide (lastSundayZ y 3 * 86400 + 3600 ≤ t ∧ t < lastSundayZ y 10 * 86400 + 3600)

/-- Paris UTC offset (seconds) at a UTC instant. -/
def parisOffsetUTC (t : Int) : Int :=
  if parisDSTutc t then 7200 else 3600

/-- Is a Paris wall-clock reading inside the daylight-saving window? -/
def parisDSTwall (w : Int) : Bool :=
  let y := (civilFromDays (Int.fdiv w 86400)).1
  decide (lastSundayZ y 3 * 86400 + 10800 ≤ w ∧ w < lastSundayZ y 10 * 86400 + 10800)

/-- Paris UTC offset (seconds) attributed to a naive wall-clock reading by
`replace(tzinfo=PARIS)`. -/
def parisOffsetWall (w : Int) : Int :=
  if parisDSTwall w then 7200 else 3600

/-- An aware `datetime`: wall-clock seconds together with its UTC offset in
seconds.  Its ISO-8601 rendering (`isoformat(timespec="seconds")`, the form
used by `to_iso` in the source) determines and is determined by this pair, so
rows store the pair itself. -/
structure AwareDT where
  wall : Int
  off : Int
deriving DecidableEq

/-- The instant an aware datetime denotes. -/
def AwareDT.instant (d : AwareDT) : Int := d.wall - d.off

/-- `astimezone(UTC)`. -/
def astimezoneUTC (d : AwareDT) : AwareDT :=
  { wall := d.instant, off := 0 }

/-- `astimezone(PARIS)`. -/
def astimezoneParis (d : AwareDT) : AwareDT :=
  { wall := d.instant + parisOffsetUTC d.instant, off := parisOffsetUTC d.instant }

/-- `replace(tzinfo=PARIS)` on a naive wall-clock reading. -/
def replaceParis (w : Int) : AwareDT :=
  { wall := w, off := parisOffsetWall w }

/-- `replace(tzinfo=UTC)` on a naive wall-clock reading. -/
def replaceUTC (w : Int) : AwareDT :=
  { wall := w, off := 0 }

/-- A parsed `datetime` as returned by the dateutil text parsers: a wall-clock
reading and, when the text carried one, a UTC offset (`tzinfo`). -/
structure DT where
  wall : Int
  off : Option Int
deriving DecidableEq

/-! ## Text parsing model for `dateutil.parser.parse` / `isoparse`

Implemented over the character list of the input string (kernel-friendly).
The modelled grammar is `YYYY-MM-DD` optionally followed by a single `T` or
space separator, `HH:MM` or `HH:MM:SS`, and an optional offset `Z`, `+HH:MM`
or `-HH:MM` — the formats occurring in the two export schemas.  Text outside
this grammar (e.g. "garbage") is a parse failure, as it is for both real
parsers.  `dateutil.parser.parse` accepts further permissive formats that no
claim depends on; both functions share this model. -/

/-- Split a character list on a separator character. -/
def splitOnChar (c : Char) (cs : List Char) : List (List Char) :=
  cs.foldr
    (fun ch acc =>
      if ch = c then [] :: acc
      else
        match acc with
        | g :: gs => (ch :: g) :: gs
        | [] => [[ch]])
    [[]]

/-- Read a run of decimal digits as a number; `none` if empty or non-digit. -/
def natOfChars (cs : List Char) : Option Nat :=
  if !cs.isEmpty && cs.all Char.isDigit then
    some (cs.foldl (fun n c => n * 10 + (c.toNat - 48)) 0)
  else none

/-- Break at the first date/time separator (`T` or space). -/
def breakAtSep : List Char → List Char × Option (List Char)
  | [] => ([], none)
  | c :: cs =>
    if c = 'T' ∨ c = ' ' then ([], some cs)
    else
      let (pre, post) := breakAtSep cs
      (c :: pre, post)

/-- Break the time-of-day portion at the start of an offset
(`Z`, `+` or `-`), keeping the sign. -/
def breakAtOffset : List Char → List Char × Option (Char × List Char)
  | [] => ([], none)
  | c :: cs =>
    if c = 'Z' ∨ c = '+' ∨ c = '-' then ([], some (c, cs))
    else
      let (pre, post) := breakAtOffset cs
      (c :: pre, post)

/-- Parse `YYYY-MM-DD` into a day count. -/
def parseDateChars (cs : List Char) : Option Int :=
  match splitOnChar '-' cs with
  | [ys, ms, ds] =>
    match natOfChars ys, natOfChars ms, natOfChars ds with
    | some y, some m, some d =>
      if 1 ≤ m ∧ m ≤ 12 ∧ 1 ≤ d ∧ d ≤ 31 then
        some (daysFromCivil (Int.ofNat y) (Int.ofNat m) (Int.ofNat d))
      else none
    | _, _, _ => none
  | _ => none

/-- Parse `HH:MM` or `HH:MM:SS` into seconds after midnight. -/
def parseTimeChars (cs : List Char) : Option Int :=
  match splitOnChar ':' cs with
  | [hs, ms] =>
    match natOfChars hs, natOfChars ms with
    | some h, some m =>
      if h ≤ 23 ∧ m ≤ 59 then some (Int.ofNat (h * 3600 + m * 60)) else none
    | _, _ => none
  | [hs, ms, ss] =>
    match natOfChars hs, natOfChars ms, natOfChars ss with
    | some h, some m, some s =>
      if h ≤ 23 ∧ m ≤ 59 ∧ s ≤ 59 then
        some (Int.ofNat (h * 3600 + m * 60 + s)) else none
    | _, _, _ => none
  | _ => none

/-- Parse an offset tail: `Z` denotes +00:00; otherwise `HH:MM` after a
`+`/`-` sign.  Returns the signed offset in seconds. -/
def parseOffsetChars (sign : Char) (cs : List Char) : Option Int :=
  if sign = 'Z' then
    if cs.isEmpty then some 0 else none
  else
    match splitOnChar ':' cs with
    | [hs, ms] =>
      match natOfChars hs, natOfChars ms with
      | some h, some m =>
        if h ≤ 23 ∧ m ≤ 59 then
          let mag : Int := Int.ofNat (h * 3600 + m * 60)
          some (if sign = '-' then -mag else mag)
        else none
      | _, _ => none
    | _ => none

/-- The shared textual datetime grammar. -/
def parseDateTimeChars (cs : List Char) : Option DT :=
  let (datePart, rest) := breakAtSep cs
  match parseDateChars datePart with
  | none => none
  | some z =>
    match rest with
    | none => some { wall := z * 86400, off := none }
    | some timeChars =>
      let (timePart, offPart) := breakAtOffset timeChars
      match parseTimeChars timePart with
      | none => none
      | some secs =>
        match offPart with
        | none => some { wall := z * 86400 + secs, off := none }
        | some (sign, offChars) =>
          match parseOffsetChars sign offChars with
          | none => none
          | some off => some { wall := z * 86400 + secs, off := some off }

/-- `dateutil.parser.parse(obj["endTime"])`: raises (`.error`) on a non-string
argument or on text outside the modelled grammar. -/
def dtParse (v : JVal) : Except String DT :=
  match v with
  | .str s =>
    match parseDateTimeChars s.data with
    | some dt => .ok dt
    | none => .error "ParserError: Unknown string format"
  | _ => .error "TypeError: Parser must be a string or character stream"

/-- `dateutil.parser.isoparse(obj["ts"])`: strict ISO-8601 parsing; raises
(`.error`) on a non-string argument or unparseable text. -/
def isoParse (v : JVal) : Except String DT :=
  match v with
  | .str s =>
    match parseDateTimeChars s.data with
    | some dt => .ok dt
    | none => .error "ValueError: Invalid isoformat string"
  | _ => .error "TypeError: Parser must be a string or character stream"

/-! ## The schema normalizer `parse_event` -/

/-- One row ready to insert into the `events` table, in the column order of
the tuple built by `parse_event`.  The two timestamp columns hold the
`to_iso` rendering of an aware datetime, which the `AwareDT` pair determines
bijectively at second precision; optional text columns hold the Python value
that was bound (`JVal.null` for SQL NULL). -/
structure Row where
  played_at_utc : AwareDT
  played_at_local : AwareDT
  track_name : JVal
  artist_name : JVal
  album_name : JVal
  ms_played : Int
  platform : JVal
  content_type : String
  raw_source : String
deriving DecidableEq

/-- The local timestamp of the old-schema branch: a naive parsed end time is
read as Paris wall-clock time (`replace(tzinfo=PARIS)`), an aware one is
converted to Paris (`astimezone(PARIS)`). -/
def oldLocal (end_time : DT) : AwareDT :=
  match end_time.off with
  | none => replaceParis end_time.wall
  | some o => astimezoneParis { wall := end_time.wall, off := o }

/-- The tuple built by the old-schema branch from the parsed end time and the
coerced `msPlayed` value (the branch's local `end_local`/`end_utc` bindings
hoisted into one definition). -/
def oldRowOf (obj : JVal) (end_time : DT) (ms : Int) : Row :=
  { played_at_utc := astimezoneUTC (oldLocal end_time)
    played_at_local := oldLocal end_time
    track_name := pyGet obj "trackName"
    artist_name := pyGet obj "artistName"
    album_name := .null
    ms_played := ms
    platform := .null
    content_type := "music"
    raw_source := "streaming_history_old" }

/-- The UTC timestamp of the new-schema branch: a naive parsed `ts` is read
as UTC (`replace(tzinfo=UTC)`), then `astimezone(UTC)` normalizes. -/
def newUTC (ts0 : DT) : AwareDT :=
  astimezoneUTC
    (match ts0.off with
     | none => replaceUTC ts0.wall
     | some o => ({ wall := ts0.wall, off := o } : AwareDT))

/-- The tuple built by the new-schema branch from the parsed `ts` and the
coerced milliseconds value (the branch's local bindings hoisted into one
definition). -/
def newRowOf (obj : JVal) (ts0 : DT) (ms : Int) : Row :=
  let track0 := pyOr (pyGet obj "master_metadata_track_name") (pyGet obj "trackName")
  let artist0 := pyOr (pyGet obj "master_metadata_album_artist_name") (pyGet obj "artistName")
  let album := pyOr (pyGet obj "master_metadata_album_album_name") (pyGet obj "albumName")
  let track :=
    if truthy track0 then track0
    else pyOr (pyGet obj "episode_name") (pyGet obj "episode_title")
  let artist :=
    if truthy artist0 then artist0
    else pyOr (pyGet obj "episode_show_name") (pyGet obj "show_name")
  let content_type :=
    if truthy (pyGet obj "spotify_episode_uri") || truthy (pyGet obj "episode_name")
        || truthy (pyGet obj "episode_show_name") then "podcast" else "music"
  { played_at_utc := newUTC ts0
    played_at_local := astimezoneParis (newUTC ts0)
    track_name := track
    artist_name := artist
    album_name := album
    ms_played := ms
    platform := pyGet obj "platform"
    content_type := content_type
    raw_source := "streaming_history_new" }

/-- `parse_event(obj)`: returns a row ready for the DB, `none` for an object
matching neither schema, and `.error` when one of the calls it makes
(`dtparser.parse`, `dtparser.isoparse`, `int(...)`) raises — the source has
no try/except around these. -/
def parse_event (obj : JVal) : Except String (Option Row) :=
  if hasKey obj "endTime" && hasKey obj "msPlayed" then
    match dtParse (pyGet obj "endTime") with
    | .error e => .error e
    | .ok end_time =>
      match pyInt (pyOr (pyGet obj "msPlayed") (JVal.int 0)) with
      | .error e => .error e
      | .ok ms =>
        if ms ≤ 0 then .ok none
        else .ok (some (oldRowOf obj end_time ms))
  else if hasKey obj "ts" && (hasKey obj "ms_played" || hasKey obj "msPlayed") then
    match isoParse (pyGet obj "ts") with
    | .error e => .error e
    | .ok ts0 =>
      match pyInt (pyOr (pyGet obj "ms_played") (pyOr (pyGet obj "msPlayed") (JVal.int 0))) with
      | .error e => .error e
      | .ok ms =>
        if ms ≤ 0 then .ok none
        else .ok (some (newRowOf obj ts0 ms))
  else
    .ok none

/-! ## The store

`init_db` declares two tables; the `file_hash TEXT NOT NULL UNIQUE` column
constraint of `imports` is carried by `insertImportRec`, the model of an
`INSERT INTO imports ...` statement, which rejects a duplicate hash exactly
as SQLite's UNIQUE constraint does. -/

/-- A file's content as ingestion sees it: either `json.loads` succeeds with
a value or it raises.  `sha256_file` is modelled as an ideal (collision-free)
content fingerprint, represented by the content itself: byte-identical files
have equal fingerprints, and the model ignores hash collisions. -/
inductive FileData where
  | invalid (raw : String) : FileData
  | valid (v : JVal) : FileData
deriving DecidableEq

/-- Content fingerprints, see `sha256_file`. -/
abbrev Hash := FileData

/-- The ideal content fingerprint standing in for the streamed SHA-256. -/
def sha256_file (content : FileData) : Hash := content

/-- A row of the `imports` table (provenance of one ingested file). -/
structure ImportRec where
  imported_at : Int
  export_root : String
  file_path : String
  file_hash : Hash
  rows_inserted : Nat
deriving DecidableEq

/-- A row of the `events` table: the `parse_event` tuple plus the
`source_file_hash` spliced in by `ingest_export`'s INSERT. -/
structure EventRec where
  row : Row
  source_file_hash : Hash
deriving DecidableEq

/-- The two tables owned by the store. -/
structure DB where
  imports : List ImportRec
  events : List EventRec
deriving DecidableEq

/-- The freshly initialized store. -/
def emptyDB : DB := { imports := [], events := [] }

/-- `SELECT 1 FROM imports WHERE file_hash=? LIMIT 1` is not None. -/
def already_imported (db : DB) (h : Hash) : Bool :=
  db.imports.any (fun q => q.file_hash == h)

/-- One `INSERT INTO imports ...` against the store: rejected when the
UNIQUE constraint on `file_hash` is violated. -/
def insertImportRec (db : DB) (r : ImportRec) : Except String DB :=
  if already_imported db r.file_hash then
    .error "UNIQUE constraint failed: imports.file_hash"
  else
    .ok { db with imports := db.imports ++ [r] }

/-- The event rows the coordinator binds for one file:
`(r[0..7], h, r[8])` for each accepted row `r`. -/
def eventRecsOf (h : Hash) (rows : List Row) : List EventRec :=
  rows.map (fun r => { row := r, source_file_hash := h })

/-- The provenance row the coordinator binds for one file. -/
def importRecOf (now : Int) (root : String) (path : String) (h : Hash)
    (n : Nat) : ImportRec :=
  { imported_at := now, export_root := root, file_path := path
    file_hash := h, rows_inserted := n }

/-! ## The ingestion coordinator `ingest_export` -/

/-- A discovered candidate file: its path and its content.
`find_candidate_files` is deterministic in the filesystem (fixed glob
patterns, dedup by resolved path), so an unchanged root directory is
represented by the list of files it yields. -/
structure SrcFile where
  path : String
  content : FileData
deriving DecidableEq

/-- The per-object loop body over a decoded JSON array: non-dict entries are
skipped, `parse_event` is consulted for dicts (its exception, if any,
propagates), and truthy results — the tuples — are collected in order. -/
def rowsOfList : List JVal → Except String (List Row)
  | [] => .ok []
  | o :: rest =>
    match o with
    | .obj fs =>
      match parse_event (.obj fs) with
      | .error e => .error e
      | .ok oe =>
        match rowsOfList rest with
        | .error e => .error e
        | .ok rs =>
          match oe with
          | some r => .ok (r :: rs)
          | none => .ok rs
    | _ => rowsOfList rest

/-- The accepted rows of one file: a file whose text does not decode
(`except Exception: data = []`) or whose value is not a JSON array yields
zero rows rather than an error. -/
def fileRows : FileData → Except String (List Row)
  | .invalid _ => .ok []
  | .valid (.arr objs) => rowsOfList objs
  | .valid _ => .ok []

/-- The store after the `if rows: conn.executemany(...)` step of one file:
events appended when there are accepted rows (`executemany` is skipped for an
empty list). -/
def dbAfterEvents (db : DB) (h : Hash) (rows : List Row) : DB :=
  if rows.isEmpty then db
  else { db with events := db.events ++ eventRecsOf h rows }

/-- Processing of one not-yet-imported file: collect its rows (a raising
`parse_event` propagates), insert them, insert the provenance record.
Returns the updated store and the file's row count. -/
def ingestNewFile (now : Int) (root : String) (db : DB) (f : SrcFile)
    (h : Hash) : Except String (DB × Nat) :=
  match fileRows f.content with
  | .error e => .error e
  | .ok rows =>
    match insertImportRec (dbAfterEvents db h rows)
        (importRecOf now root f.path h rows.length) with
    | .error e => .error e
    | .ok db2 => .ok (db2, rows.length)

/-- The per-file loop of `ingest_export`, returning the final store plus the
`(new_files, skipped, rows_total)` counters.  An uncaught exception from
`parse_event` or a storage-layer failure aborts the run (`.error`). -/
def ingestFiles (now : Int) (root : String) (db : DB) :
    List SrcFile → Except String (DB × Nat × Nat × Nat)
  | [] => .ok (db, 0, 0, 0)
  | f :: rest =>
    if already_imported db (sha256_file f.content) then
      match ingestFiles now root db rest with
      | .error e => .error e
      | .ok (d, n, s, r) => .ok (d, n, s + 1, r)
    else
      match ingestNewFile now root db f (sha256_file f.content) with
      | .error e => .error e
      | .ok (db2, len) =>
        match ingestFiles now root db2 rest with
        | .error e => .error e
        | .ok (d, n, s, r) => .ok (d, n + 1, s, r + len)

/-- The summary dict `ingest_export` returns. -/
structure Summary where
  export_root : String
  files_found : Nat
  new_files_imported : Nat
  files_skipped : Nat
  rows_inserted : Nat
deriving DecidableEq

/-- `ingest_export(conn, export_root)`: process the discovered files and
report the summary.  `now` is the wall clock read for `imported_at`. -/
def ingest_export (now : Int) (root : String) (db : DB) (files : List SrcFile) :
    Except String (DB × Summary) :=
  match ingestFiles now root db files with
  | .error e => .error e
  | .ok (db', n, s, r) =>
    .ok (db', { export_root := root, files_found := files.length
                new_files_imported := n, files_skipped := s, rows_inserted := r })

/-! ## Transaction-level trace of ingestion

The sqlite3 connection runs in deferred-transaction mode: the event INSERTs
and the provenance INSERT of one file execute inside one implicit
transaction that `conn.commit()` makes durable.  `Op` is the sequence of
write statements the coordinator issues; `runOps` executes them against a
connection view `cur` and a durable state `durable` (what a reader after a
crash observes).  A failed statement marks the connection failed; the
source does not catch storage errors, so nothing further executes.  The
event INSERTs and the provenance INSERT of one file commit together. -/

inductive Op where
  | insertEvents (rows : List EventRec) : Op
  | insertImport (r : ImportRec) : Op
  | commit : Op
deriving DecidableEq

/-- Connection view, durable state, and whether a statement has failed. -/
structure TxState where
  cur : DB
  durable : DB
  failed : Bool
deriving DecidableEq

/-- Execute one statement. -/
def stepOp (s : TxState) (op : Op) : TxState :=
  if s.failed then s
  else
    match op with
    | .insertEvents rows =>
      { s with cur := { s.cur with events := s.cur.events ++ rows } }
    | .insertImport r =>
      match insertImportRec s.cur r with
      | .ok db' => { s with cur := db' }
      | .error _ => { s with failed := true }
    | .commit => { s with durable := s.cur }

/-- Execute a statement sequence. -/
def runOps (s : TxState) (ops : List Op) : TxState :=
  ops.foldl stepOp s

/-- The statements `ingest_export` issues for one new file: the
`executemany` over the accepted rows (skipped when there are none), the
provenance INSERT, and the commit. -/
def fileOps (now : Int) (root : String) (path : String) (h : Hash)
    (rows : List Row) : List Op :=
  (if rows.isEmpty then [] else [Op.insertEvents (eventRecsOf h rows)]) ++
    [Op.insertImport (importRecOf now root path h rows.length), Op.commit]

/-- The store after one new file's statements are executed and committed. -/
def applyFile (db : DB) (now : Int) (root : String) (path : String)
    (h : Hash) (rows : List Row) : DB :=
  { dbAfterEvents db h rows with
    imports := (dbAfterEvents db h rows).imports ++
      [importRecOf now root path h rows.length] }

/-- The full statement trace of an ingestion run over the discovered files.
A skipped file issues nothing; an uncaught `parse_event` exception ends the
run before the file's first write. -/
def ingestOps (now : Int) (root : String) (db : DB) : List SrcFile → List Op
  | [] => []
  | f :: rest =>
    if already_imported db (sha256_file f.content) then ingestOps now root db rest
    else
      match fileRows f.content with
      | .error _ => []
      | .ok rows =>
        fileOps now root f.path (sha256_file f.content) rows ++
          ingestOps now root
            (applyFile db now root f.path (sha256_file f.content) rows) rest

/-- Consistency of a durable store state, as claimed for atomicity: import
provenance hashes are pairwise distinct, every event's source hash has its
ImportRecord, and every ImportRecord's `rows_inserted` equals the number of
stored events carrying its hash. -/
def consistent (db : DB) : Prop :=
  List.Pairwise (fun a b => a.file_hash ≠ b.file_hash) db.imports ∧
  (∀ e ∈ db.events, ∃ r ∈ db.imports, r.file_hash = e.source_file_hash) ∧
  (∀ r ∈ db.imports,
    db.events.countP (fun e => e.source_file_hash == r.file_hash) = r.rows_inserted)

instance (db : DB) : Decidable (consistent db) := by
  unfold consistent
  infer_instance

/-! ## The aggregator (`load_df` and the `report` groupings)

`load_df` selects the event columns, re-derives `played_at_local` by pinning
the stored text as UTC and converting to Paris, and adds
`minutes = ms_played / 60000`.  The claims consume the `artist_name` /
`minutes` projection; `minutes` is modelled exactly in `ℚ` (the float
division is exact for the integral tie cases at issue).  A stored timestamp
always re-parses, so `dropna(subset=["played_at_local"])` drops nothing. -/

/-- One `load_df` row in the projection the top-artists grouping reads:
the artist value and the minutes played. -/
def dfArtistMinutes (evs : List EventRec) : List (JVal × ℚ) :=
  evs.map (fun e => (e.row.artist_name, (e.row.ms_played : ℚ) / 60000))

/-- `dropna(subset=["artist_name"])`: drop rows whose artist is None. -/
def dropnaArtist (rows : List (JVal × ℚ)) : List (JVal × ℚ) :=
  rows.filter (fun p => p.1 != JVal.null)

/-- The key order `groupby` (with its default `sort=True`) applies to the
group keys: lexicographic on strings.  Non-string keys (on which real pandas
sorting would raise) are collapsed below all strings. -/
def keyLE (a b : JVal) : Bool :=
  match a, b with
  | .str x, .str y => x ≤ y
  | .str _, _ => false
  | _, _ => true

/-- `keyLE` as a decidable relation for `insertionSort`. -/
def keyLEP (a b : JVal) : Prop := keyLE a b = true

instance : DecidableRel keyLEP := fun a b => by
  unfold keyLEP
  infer_instance

/-- `groupby("artist_name")[...].sum()`: one `(key, total)` pair per distinct
key, keys sorted ascending (pandas `sort=True`). -/
def groupbySum (rows : List (JVal × ℚ)) : List (JVal × ℚ) :=
  (List.insertionSort keyLEP (rows.map Prod.fst).dedup).map
    (fun k => (k, ((rows.filter (fun p => p.1 == k)).map Prod.snd).sum))

/-- `.sort_values(ascending=False)` modelled as a stable descending sort
(ties keep the sorted-key order they arrive in), followed by `.head(15)`:
the top-artists series of `report`. -/
def top_art (evs : List EventRec) : List (JVal × ℚ) :=
  (List.insertionSort (fun a b : JVal × ℚ => b.2 ≤ a.2)
    (groupbySum (dropnaArtist (dfArtistMinutes evs)))).take 15

/-! ## Reachable store states

The store's only writers are the event INSERT (`executemany`, unconstrained
beyond NOT NULL) and the provenance INSERT, which goes through
`insertImportRec` and hence through the UNIQUE constraint on `file_hash`. -/

/-- Store states reachable through the store's write interface. -/
inductive Reachable : DB → Prop where
  | init : Reachable emptyDB
  | insertEvents (db : DB) (rows : List EventRec) :
      Reachable db → Reachable { db with events := db.events ++ rows }
  | insertImport (db db' : DB) (r : ImportRec) :
      Reachable db → insertImportRec db r = .ok db' → Reachable db'

/-! ## Concrete inputs used to exercise the theorems -/

/-- The spec's old-schema example record. -/
def exOld : JVal :=
  .obj [("endTime", .str "2023-05-01 10:00:00"), ("msPlayed", .int 120000),
        ("trackName", .str "A"), ("artistName", .str "B")]

/-- The spec's new-schema podcast example record. -/
def exNew : JVal :=
  .obj [("ts", .str "2023-05-01T08:00:00Z"), ("ms_played", .int 60000),
        ("master_metadata_track_name", .str "C"), ("episode_name", .str "D")]

/-- An old-schema record whose end timestamp text parses in neither the real
nor the modelled grammar. -/
def exGarbage : JVal :=
  .obj [("endTime", .str "garbage"), ("msPlayed", .int 1000)]

/-- A record matching neither schema. -/
def exUnknown : JVal := .obj [("foo", .int 1)]

/-- A new-schema record with a falsy `ms_played` and a positive `msPlayed`. -/
def exFallback : JVal :=
  .obj [("ts", .str "2023-05-01T08:00:00Z"), ("ms_played", .int 0),
        ("msPlayed", .int 5000)]

/-- The row `parse_event` produces for `exOld` (end time 2023-05-01 10:00:00,
day 19478 since the epoch). -/
def wOldRow : Row := oldRowOf exOld { wall := 1682935200, off := none } 120000

/-- A discovered file holding exactly the record `exOld`. -/
def okFile : SrcFile :=
  { path := "/r/StreamingHistory0.json", content := .valid (.arr [exOld]) }

/-- A discovered file whose text is not valid JSON. -/
def badFile : SrcFile :=
  { path := "/r/endsong_0.json", content := .invalid "not valid json" }

/-- The store after ingesting `[okFile]` into a fresh store. -/
def wdb1 : DB :=
  { imports := [importRecOf 0 "/r" "/r/StreamingHistory0.json" (sha256_file okFile.content) 1]
    events := [{ row := wOldRow, source_file_hash := sha256_file okFile.content }] }

/-- An event attributing ten minutes to artist "Zed". -/
def evZed : EventRec :=
  { row := { played_at_utc := { wall := 0, off := 0 }
             played_at_local := { wall := 3600, off := 3600 }
             track_name := .str "t1", artist_name := .str "Zed"
             album_name := .null, ms_played := 600000, platform := .null
             content_type := "music", raw_source := "streaming_history_old" }
    source_file_hash := .valid .null }

/-- An event attributing ten minutes to artist "Abe". -/
def evAbe : EventRec :=
  { evZed with row := { evZed.row with artist_name := .str "Abe", track_name := .str "t2" } }

/-- A new-schema record whose ISO timestamp carries no offset. -/
def exNewNaive : JVal :=
  .obj [("ts", .str "2023-05-01T08:00:00"), ("ms_played", .int 60000),
        ("master_metadata_track_name", .str "C"),
        ("master_metadata_album_artist_name", .str "E")]

/-- The row `parse_event` produces for `exNewNaive`. -/
def wNewRow : Row := newRowOf exNewNaive { wall := 1682928000, off := none } 60000

/-- The row `parse_event` produces for the podcast example `exNew`. -/
def wPodRow : Row := newRowOf exNew { wall := 1682928000, off := some 0 } 60000

/-- The row `parse_event` produces for the fallback example `exFallback`. -/
def wFbRow : Row := newRowOf exFallback { wall := 1682928000, off := some 0 } 5000

/-- Artist column values real exports produce: text or SQL NULL. -/
def isStrOrNull : JVal → Bool
  | .null => true
  | .str _ => true
  | _ => false

/-- The provenance record of `okFile` in `wdb1`. -/
def wImp : ImportRec :=
  importRecOf 0 "/r" "/r/StreamingHistory0.json" (sha256_file okFile.content) 1

/-- A store holding exactly the provenance record `wImp`. -/
def wdbR : DB := { imports := [wImp], events := [] }

/-- The store after ingesting `[okFile, badFile]` into a fresh store. -/
def wdb2 : DB :=
  { imports := [importRecOf 0 "/r" "/r/StreamingHistory0.json" (sha256_file okFile.content) 1,
                importRecOf 0 "/r" "/r/endsong_0.json" (sha256_file badFile.content) 0]
    events := [{ row := wOldRow, source_file_hash := sha256_file okFile.content }] }

/-- The summary of that run. -/
def wsum1 : Summary :=
  { export_root := "/r", files_found := 2, new_files_imported := 2
    files_skipped := 0, rows_inserted := 1 }

/-! # Theorems

First, inversion lemmas for the three outcomes of `parse_event`. -/

/-- A successful, accepting run of `parse_event` went through exactly one of
the two schema branches, with a parsed timestamp, a coerced positive
milliseconds value, and the branch's row. -/
theorem parse_event_ok_inv (obj : JVal) (r : Row)
    (hp : parse_event obj = .ok (some r)) :
    ((hasKey obj "endTime" && hasKey obj "msPlayed") = true ∧
      ∃ end_time ms, dtParse (pyGet obj "endTime") = .ok end_time ∧
        pyInt (pyOr (pyGet obj "msPlayed") (JVal.int 0)) = .ok ms ∧
        0 < ms ∧ r = oldRowOf obj end_time ms) ∨
    ((hasKey obj "endTime" && hasKey obj "msPlayed") = false ∧
      (hasKey obj "ts" && (hasKey obj "ms_played" || hasKey obj "msPlayed")) = true ∧
      ∃ ts0 ms, isoParse (pyGet obj "ts") = .ok ts0 ∧
        pyInt (pyOr (pyGet obj "ms_played") (pyOr (pyGet obj "msPlayed") (JVal.int 0))) = .ok ms ∧
        0 < ms ∧ r = newRowOf obj ts0 ms) := by
  unfold parse_event at hp
  split at hp
  · rename_i hk
    left
    refine ⟨hk, ?_⟩
    split at hp
    · exact absurd hp (by simp)
    · rename_i end_time hdt
      split at hp
      · exact absurd hp (by simp)
      · rename_i ms hms
        split at hp
        · exact absurd hp (by simp)
        · rename_i hle
          refine ⟨end_time, ms, hdt, hms, by omega, ?_⟩
          simpa [eq_comm] using hp
  · rename_i hk
    split at hp
    · rename_i hk2
      right
      refine ⟨by simpa using hk, hk2, ?_⟩
      split at hp
      · exact absurd hp (by simp)
      · rename_i ts0 hts
        split at hp
        · exact absurd hp (by simp)
        · rename_i ms hms
          split at hp
          · exact absurd hp (by simp)
          · rename_i hle
            refine ⟨ts0, ms, hts, hms, by omega, ?_⟩
            simpa [eq_comm] using hp
    · exact absurd hp (by simp)

/-- A raising run of `parse_event` matched one of the two schema branches and
the exception came from the timestamp parse or the `int(...)` coercion of
that branch. -/
theorem parse_event_error_inv (obj : JVal) (e : String)
    (hp : parse_event obj = .error e) :
    ((hasKey obj "endTime" && hasKey obj "msPlayed") = true ∧
      (dtParse (pyGet obj "endTime") = .error e ∨
        ∃ end_time, dtParse (pyGet obj "endTime") = .ok end_time ∧
          pyInt (pyOr (pyGet obj "msPlayed") (JVal.int 0)) = .error e)) ∨
    ((hasKey obj "endTime" && hasKey obj "msPlayed") = false ∧
      (hasKey obj "ts" && (hasKey obj "ms_played" || hasKey obj "msPlayed")) = true ∧
      (isoParse (pyGet obj "ts") = .error e ∨
        ∃ ts0, isoParse (pyGet obj "ts") = .ok ts0 ∧
          pyInt (pyOr (pyGet obj "ms_played") (pyOr (pyGet obj "msPlayed") (JVal.int 0))) = .error e)) := by
  unfold parse_event at hp
  split at hp
  · rename_i hk
    left
    refine ⟨hk, ?_⟩
    split at hp
    · rename_i e' hdt
      left
      obtain rfl : e' = e := by simpa using hp
      exact hdt
    · rename_i end_time hdt
      split at hp
      · rename_i e' hms
        obtain rfl : e' = e := by simpa using hp
        exact Or.inr ⟨end_time, hdt, hms⟩
      · split at hp
        · exact absurd hp (by simp)
        · exact absurd hp (by simp)
  · rename_i hk
    split at hp
    · rename_i hk2
      right
      refine ⟨by simpa using hk, hk2, ?_⟩
      split at hp
      · rename_i e' hts
        left
        obtain rfl : e' = e := by simpa using hp
        exact hts
      · rename_i ts0 hts
        split at hp
        · rename_i e' hms
          obtain rfl : e' = e := by simpa using hp
          exact Or.inr ⟨ts0, hts, hms⟩
        · split at hp
          · exact absurd hp (by simp)
          · exact absurd hp (by simp)
    · exact absurd hp (by simp)

/-- An object matching neither schema is silently skipped. -/
theorem parse_event_unknown_skip (obj : JVal)
    (hk : (hasKey obj "endTime" && hasKey obj "msPlayed") = false)
    (hk2 : (hasKey obj "ts" && (hasKey obj "ms_played" || hasKey obj "msPlayed")) = false) :
    parse_event obj = .ok none := by
  unfold parse_event
  rw [if_neg (by simp [hk]), if_neg (by simp [hk2])]

/-- Forward run of the new-schema branch. -/
theorem parse_event_new_ok (obj : JVal) (ts0 : DT) (ms : Int)
    (hk : (hasKey obj "endTime" && hasKey obj "msPlayed") = false)
    (hk2 : (hasKey obj "ts" && (hasKey obj "ms_played" || hasKey obj "msPlayed")) = true)
    (hts : isoParse (pyGet obj "ts") = .ok ts0)
    (hms : pyInt (pyOr (pyGet obj "ms_played") (pyOr (pyGet obj "msPlayed") (JVal.int 0))) = .ok ms)
    (hpos : 0 < ms) :
    parse_event obj = .ok (some (newRowOf obj ts0 ms)) := by
  unfold parse_event
  rw [if_neg (by simp [hk]), if_pos hk2, hts, hms]
  dsimp only
  rw [if_neg (by omega)]

/-- Any row `parse_event` accepts carries a positive `ms_played`. -/
theorem parse_event_some_ms_pos (obj : JVal) (r : Row)
    (hp : parse_event obj = .ok (some r)) : 0 < r.ms_played := by
  rcases parse_event_ok_inv obj r hp with
    ⟨_, end_time, ms, _, _, hpos, rfl⟩ | ⟨_, _, ts0, ms, _, _, hpos, rfl⟩
  · simpa [oldRowOf] using hpos
  · simpa [newRowOf] using hpos

/-- All rows collected from a decoded JSON array have positive `ms_played`. -/
theorem rowsOfList_ms_pos :
    ∀ (objs : List JVal) (rows : List Row), rowsOfList objs = .ok rows →
      ∀ r ∈ rows, 0 < r.ms_played := by
  intro objs
  induction objs with
  | nil =>
    intro rows h r hr
    obtain rfl : ([] : List Row) = rows := by simpa [rowsOfList] using h
    simp at hr
  | cons o rest ih =>
    intro rows h r hr
    unfold rowsOfList at h
    split at h
    · rename_i fs
      split at h
      · exact absurd h (by simp)
      · rename_i oe hpe
        split at h
        · exact absurd h (by simp)
        · rename_i rs hrs
          split at h
          · rename_i r'
            obtain rfl : r' :: rs = rows := by simpa using h
            rcases List.mem_cons.mp hr with rfl | hr'
            · exact parse_event_some_ms_pos _ r hpe
            · exact ih rs hrs r hr'
          · obtain rfl : rs = rows := by simpa using h
            exact ih rs hrs r hr
    · exact ih rows h r hr

/-- All rows a file contributes have positive `ms_played`. -/
theorem fileRows_ms_pos (c : FileData) (rows : List Row)
    (h : fileRows c = .ok rows) : ∀ r ∈ rows, 0 < r.ms_played := by
  unfold fileRows at h
  split at h
  · obtain rfl : ([] : List Row) = rows := by simpa using h
    simp
  · exact rowsOfList_ms_pos _ rows h
  · obtain rfl : ([] : List Row) = rows := by simpa using h
    simp

/-- A successful provenance INSERT leaves events unchanged and appends the
record; it presupposed the hash was fresh. -/
theorem insertImportRec_ok_inv (db : DB) (r : ImportRec) (db' : DB)
    (h : insertImportRec db r = .ok db') :
    already_imported db r.file_hash = false ∧
    db' = { db with imports := db.imports ++ [r] } := by
  unfold insertImportRec at h
  split at h
  · exact absurd h (by simp)
  · rename_i hni
    exact ⟨by simpa using hni, by simpa [eq_comm] using h⟩

/-- A successful run over no files changes nothing and counts zeros. -/
theorem ingestFiles_nil_inv (now : Int) (root : String) (db db' : DB)
    (n s rr : Nat) (hh : ingestFiles now root db [] = .ok (db', n, s, rr)) :
    db' = db ∧ n = 0 ∧ s = 0 ∧ rr = 0 := by
  simp only [ingestFiles, Except.ok.injEq, Prod.mk.injEq] at hh
  exact ⟨hh.1.symm, hh.2.1.symm, hh.2.2.1.symm, hh.2.2.2.symm⟩

/-- Inversion of one new-file step. -/
theorem ingestNewFile_ok_inv (now : Int) (root : String) (db : DB)
    (f : SrcFile) (h : Hash) (db2 : DB) (len : Nat)
    (hh : ingestNewFile now root db f h = .ok (db2, len)) :
    ∃ rows, fileRows f.content = .ok rows ∧ len = rows.length ∧
      already_imported (dbAfterEvents db h rows) h = false ∧
      db2 = { dbAfterEvents db h rows with
        imports := (dbAfterEvents db h rows).imports ++
          [importRecOf now root f.path h rows.length] } := by
  unfold ingestNewFile at hh
  split at hh
  · exact absurd hh (by simp)
  · rename_i rows hrows
    split at hh
    · exact absurd hh (by simp)
    · rename_i dbx hins
      obtain ⟨rfl, rfl⟩ : dbx = db2 ∧ rows.length = len := by simpa using hh
      obtain ⟨hfresh, hdb2⟩ := insertImportRec_ok_inv _ _ _ hins
      exact ⟨rows, hrows, rfl, by simpa [importRecOf] using hfresh, hdb2⟩

/-- Inversion of one step of the per-file loop. -/
theorem ingestFiles_cons_inv (now : Int) (root : String) (db db' : DB)
    (f : SrcFile) (rest : List SrcFile) (n s rr : Nat)
    (hh : ingestFiles now root db (f :: rest) = .ok (db', n, s, rr)) :
    (already_imported db (sha256_file f.content) = true ∧
      ∃ s0, s = s0 + 1 ∧ ingestFiles now root db rest = .ok (db', n, s0, rr)) ∨
    (already_imported db (sha256_file f.content) = false ∧
      ∃ db2 len n0 r0,
        ingestNewFile now root db f (sha256_file f.content) = .ok (db2, len) ∧
        n = n0 + 1 ∧ rr = r0 + len ∧
        ingestFiles now root db2 rest = .ok (db', n0, s, r0)) := by
  unfold ingestFiles at hh
  split at hh
  · rename_i himp
    left
    refine ⟨himp, ?_⟩
    split at hh
    · exact absurd hh (by simp)
    · rename_i d n' s' r' hrec
      obtain ⟨rfl, rfl, rfl, rfl⟩ : d = db' ∧ n' = n ∧ s' + 1 = s ∧ r' = rr := by
        simpa using hh
      exact ⟨s', rfl, hrec⟩
  · rename_i himp
    right
    refine ⟨by simpa using himp, ?_⟩
    split at hh
    · exact absurd hh (by simp)
    · rename_i db2 len hnew
      split at hh
      · exact absurd hh (by simp)
      · rename_i d n' s' r' hrec
        obtain ⟨rfl, rfl, rfl, rfl⟩ : d = db' ∧ n' + 1 = n ∧ s' = s ∧ r' + len = rr := by
          simpa using hh
        exact ⟨db2, len, n', r', hnew, rfl, rfl, hrec⟩

/-- The positivity invariant on stored events is preserved by a full
ingestion run. -/
theorem ingestFiles_events_pos :
    ∀ (files : List SrcFile) (now : Int) (root : String) (db db' : DB) (n s rr : Nat),
      (∀ e ∈ db.events, 0 < e.row.ms_played) →
      ingestFiles now root db files = .ok (db', n, s, rr) →
      ∀ e ∈ db'.events, 0 < e.row.ms_played := by
  intro files
  induction files with
  | nil =>
    intro now root db db' n s rr hdb hh
    obtain ⟨rfl, -, -, -⟩ := ingestFiles_nil_inv now root db db' n s rr hh
    exact hdb
  | cons f rest ih =>
    intro now root db db' n s rr hdb hh
    rcases ingestFiles_cons_inv now root db db' f rest n s rr hh with
      ⟨-, s0, -, hrec⟩ | ⟨-, db2, len, n0, r0, hnew, -, -, hrec⟩
    · exact ih now root db db' n s0 rr hdb hrec
    · obtain ⟨rows, hrows, -, -, rfl⟩ := ingestNewFile_ok_inv _ _ _ _ _ _ _ hnew
      refine ih now root _ db' n0 s r0 ?_ hrec
      intro e he
      simp only [dbAfterEvents] at he
      split at he
      · exact hdb e he
      · rcases List.mem_append.mp he with he' | he'
        · exact hdb e he'
        · obtain ⟨rw, hrw, rfl⟩ := List.mem_map.mp he'
          exact fileRows_ms_pos f.content rows hrows rw hrw

/-- C4: every event row ever stored satisfies `ms_played > 0`: in both schema
branches of the normalizer a record whose resolved milliseconds value is zero
or negative is rejected (never returned as a row), and an ingestion run
starting from a store whose events all satisfy the invariant leaves a store
whose events all satisfy it. -/
theorem events_ms_played_positive :
    (∀ (obj : JVal) (r : Row), parse_event obj = .ok (some r) → 0 < r.ms_played) ∧
    (∀ (now : Int) (root : String) (db db' : DB) (files : List SrcFile) (n s rr : Nat),
      (∀ e ∈ db.events, 0 < e.row.ms_played) →
      ingestFiles now root db files = .ok (db', n, s, rr) →
      ∀ e ∈ db'.events, 0 < e.row.ms_played) :=
  ⟨parse_event_some_ms_pos,
   fun now root db db' files n s rr hdb h => ingestFiles_events_pos files now root db db' n s rr hdb h⟩

/-- C4 exercised: the spec's old-schema example is accepted with a positive
`ms_played`, and the store ingesting that file satisfies the invariant. -/
theorem events_ms_played_positive_witness :
    0 < wOldRow.ms_played ∧ ∀ e ∈ wdb1.events, 0 < e.row.ms_played := by
  constructor
  · exact events_ms_played_positive.1 exOld wOldRow (by decide)
  · exact events_ms_played_positive.2 0 "/r" emptyDB wdb1 [okFile] 1 0 1
      (by simp [emptyDB]) (by decide)

/-- C5: the old-schema branch reads an offset-less end timestamp as Paris
wall-clock time and converts an offset-carrying one to Paris, then derives
UTC from the Paris-local value; the new-schema branch reads an offset-less
timestamp as UTC and derives the Paris-local value from UTC. -/
theorem timezone_defaults_asymmetry :
    (∀ (obj : JVal) (r : Row) (end_time : DT),
      parse_event obj = .ok (some r) →
      (hasKey obj "endTime" && hasKey obj "msPlayed") = true →
      dtParse (pyGet obj "endTime") = .ok end_time →
      (end_time.off = none → r.played_at_local = replaceParis end_time.wall) ∧
      (∀ o, end_time.off = some o →
        r.played_at_local = astimezoneParis { wall := end_time.wall, off := o }) ∧
      r.played_at_utc = astimezoneUTC r.played_at_local) ∧
    (∀ (obj : JVal) (r : Row) (ts0 : DT),
      parse_event obj = .ok (some r) →
      (hasKey obj "endTime" && hasKey obj "msPlayed") = false →
      isoParse (pyGet obj "ts") = .ok ts0 →
      ts0.off = none →
      r.played_at_utc = replaceUTC ts0.wall ∧
      r.played_at_local = astimezoneParis r.played_at_utc) := by
  constructor
  · intro obj r end_time hp hk hdt
    rcases parse_event_ok_inv obj r hp with
      ⟨-, dt', ms, hdt', -, -, rfl⟩ | ⟨hk', -, -⟩
    · obtain rfl : dt' = end_time := by
        have := hdt'.symm.trans hdt
        simpa using this
      refine ⟨?_, ?_, ?_⟩
      · intro hoff
        simp [oldRowOf, oldLocal, hoff]
      · intro o hoff
        simp [oldRowOf, oldLocal, hoff]
      · simp [oldRowOf]
    · rw [hk] at hk'
      exact absurd hk' (by simp)
  · intro obj r ts0 hp hk hts hoff
    rcases parse_event_ok_inv obj r hp with
      ⟨hk', -, -⟩ | ⟨-, -, ts', ms, hts', -, -, rfl⟩
    · rw [hk] at hk'
      exact absurd hk' (by simp)
    · obtain rfl : ts' = ts0 := by
        have := hts'.symm.trans hts
        simpa using this
      constructor
      · simp [newRowOf, newUTC, hoff, astimezoneUTC, replaceUTC, AwareDT.instant]
      · simp [newRowOf]

/-- C5 exercised at the spec's old-schema example (naive end time, read as
Paris civil time, UTC derived from it) and at an offset-less new-schema
record (read as UTC, Paris-local derived from it). -/
theorem timezone_defaults_asymmetry_witness :
    (wOldRow.played_at_local = replaceParis 1682935200 ∧
     wOldRow.played_at_utc = astimezoneUTC wOldRow.played_at_local) ∧
    (wNewRow.played_at_utc = replaceUTC 1682928000 ∧
     wNewRow.played_at_local = astimezoneParis wNewRow.played_at_utc) := by
  constructor
  · have h := timezone_defaults_asymmetry.1 exOld wOldRow
      { wall := 1682935200, off := none } (by decide) (by decide) (by decide)
    exact ⟨h.1 rfl, h.2.2⟩
  · exact timezone_defaults_asymmetry.2 exNewNaive wNewRow
      { wall := 1682928000, off := none } (by decide) (by decide) (by decide) rfl

/-- C6: in the new-schema branch, `content_type` is `podcast` exactly when
the episode URI, episode name, or show name field is present (truthy), and
`music` otherwise; the track name is the rich-metadata one when present and
falls back to the podcast episode-name fields only when no track name is
available. -/
theorem content_type_podcast_detection :
    ∀ (obj : JVal) (r : Row),
      (hasKey obj "endTime" && hasKey obj "msPlayed") = false →
      parse_event obj = .ok (some r) →
      ((r.content_type = "podcast" ↔
        (truthy (pyGet obj "spotify_episode_uri") = true ∨
         truthy (pyGet obj "episode_name") = true ∨
         truthy (pyGet obj "episode_show_name") = true)) ∧
       (truthy (pyGet obj "master_metadata_track_name") = true →
         r.track_name = pyGet obj "master_metadata_track_name") ∧
       (truthy (pyOr (pyGet obj "master_metadata_track_name") (pyGet obj "trackName")) = false →
         r.track_name = pyOr (pyGet obj "episode_name") (pyGet obj "episode_title"))) := by
  intro obj r hk hp
  rcases parse_event_ok_inv obj r hp with
    ⟨hk', -, -⟩ | ⟨-, -, ts0, ms, -, -, -, rfl⟩
  · rw [hk] at hk'
    exact absurd hk' (by simp)
  · refine ⟨?_, ?_, ?_⟩
    · have hct : (newRowOf obj ts0 ms).content_type =
          if (truthy (pyGet obj "spotify_episode_uri") || truthy (pyGet obj "episode_name")
              || truthy (pyGet obj "episode_show_name")) = true then "podcast" else "music" := rfl
      rw [hct]
      by_cases hc : (truthy (pyGet obj "spotify_episode_uri") || truthy (pyGet obj "episode_name")
          || truthy (pyGet obj "episode_show_name")) = true
      · rw [if_pos hc]
        exact iff_of_true rfl (by simpa [Bool.or_eq_true, or_assoc] using hc)
      · rw [if_neg hc]
        exact iff_of_false (by decide) (by simpa [Bool.or_eq_true, or_assoc] using hc)
    · intro hrich
      simp [newRowOf, pyOr, hrich]
    · intro hfall
      simp [newRowOf, hfall]

/-- C6 exercised at the spec's example: a record carrying both a
rich-metadata track name and an episode name is classified `podcast` yet
keeps the rich-metadata track name. -/
theorem content_type_podcast_detection_witness :
    (wPodRow.content_type = "podcast" ↔
      (truthy (pyGet exNew "spotify_episode_uri") = true ∨
       truthy (pyGet exNew "episode_name") = true ∨
       truthy (pyGet exNew "episode_show_name") = true)) ∧
    wPodRow.track_name = JVal.str "C" := by
  have h := content_type_podcast_detection exNew wPodRow (by decide) (by decide)
  exact ⟨h.1, (h.2.1 (by decide)).trans (by decide)⟩

/-- C10: in the new-schema branch the milliseconds value falls back through
the falsy chain `obj.get("ms_played") or obj.get("msPlayed") or 0`: when
`ms_played` is absent, null, or 0 and `msPlayed` holds a positive integer,
the record is accepted with the `msPlayed` value. -/
theorem ms_played_falsy_fallback :
    ∀ (obj : JVal) (ts0 : DT) (k : Int),
      (hasKey obj "endTime" && hasKey obj "msPlayed") = false →
      (hasKey obj "ts" && (hasKey obj "ms_played" || hasKey obj "msPlayed")) = true →
      isoParse (pyGet obj "ts") = .ok ts0 →
      truthy (pyGet obj "ms_played") = false →
      pyGet obj "msPlayed" = .int k →
      0 < k →
      parse_event obj = .ok (some (newRowOf obj ts0 k)) ∧
      (newRowOf obj ts0 k).ms_played = k := by
  intro obj ts0 k hk hk2 hts hfalsy hmsp hkpos
  have hchain : pyOr (pyGet obj "ms_played") (pyOr (pyGet obj "msPlayed") (JVal.int 0)) =
      .int k := by
    rw [pyOr, if_neg (by simp [hfalsy]), hmsp, pyOr,
      if_pos (by simp [truthy]; omega)]
  refine ⟨parse_event_new_ok obj ts0 k hk hk2 hts ?_ hkpos, by simp [newRowOf]⟩
  rw [hchain]
  rfl

/-- C10 exercised: a record with `ms_played = 0` and `msPlayed = 5000` is
accepted and stored with 5000 milliseconds. -/
theorem ms_played_falsy_fallback_witness :
    parse_event exFallback = .ok (some wFbRow) ∧ wFbRow.ms_played = 5000 := by
  exact ms_played_falsy_fallback exFallback { wall := 1682928000, off := some 0 } 5000
    (by decide) (by decide) (by decide) (by decide) (by decide) (by decide)

/-- C2 is false as stated: an object holding the old-schema keys with
unparseable end-timestamp text makes `parse_event` raise (the
`dtparser.parse` exception is not caught), rather than being silently
skipped. -/
theorem parse_event_fatal_counterexample :
    parse_event exGarbage = .error "ParserError: Unknown string format" := by
  decide

/-- C2 amended: `parse_event` silently skips (returns the not-an-event
result for) every object matching neither schema's key test, and the only
fatal errors it can raise for an individual object come from the timestamp
parse or the milliseconds `int(...)` coercion of the schema branch the
object matched. -/
theorem parse_event_error_sources :
    (∀ obj : JVal,
      (hasKey obj "endTime" && hasKey obj "msPlayed") = false →
      (hasKey obj "ts" && (hasKey obj "ms_played" || hasKey obj "msPlayed")) = false →
      parse_event obj = .ok none) ∧
    (∀ (obj : JVal) (e : String), parse_event obj = .error e →
      ((hasKey obj "endTime" && hasKey obj "msPlayed") = true ∧
        (dtParse (pyGet obj "endTime") = .error e ∨
          ∃ end_time, dtParse (pyGet obj "endTime") = .ok end_time ∧
            pyInt (pyOr (pyGet obj "msPlayed") (JVal.int 0)) = .error e)) ∨
      ((hasKey obj "endTime" && hasKey obj "msPlayed") = false ∧
        (hasKey obj "ts" && (hasKey obj "ms_played" || hasKey obj "msPlayed")) = true ∧
        (isoParse (pyGet obj "ts") = .error e ∨
          ∃ ts0, isoParse (pyGet obj "ts") = .ok ts0 ∧
            pyInt (pyOr (pyGet obj "ms_played") (pyOr (pyGet obj "msPlayed") (JVal.int 0))) = .error e))) :=
  ⟨parse_event_unknown_skip, parse_event_error_inv⟩

/-- C2 amended, exercised: an unrelated object is skipped without error, and
the raising example's error indeed stems from its end-timestamp text. -/
theorem parse_event_error_sources_witness :
    parse_event exUnknown = .ok none ∧
    dtParse (pyGet exGarbage "endTime") = .error "ParserError: Unknown string format" := by
  refine ⟨parse_event_error_sources.1 exUnknown (by decide) (by decide), ?_⟩
  rcases parse_event_error_sources.2 exGarbage "ParserError: Unknown string format"
      (by decide) with ⟨-, h | ⟨dt, hdt, -⟩⟩ | ⟨hk, -, -⟩
  · exact h
  · have hd : dtParse (pyGet exGarbage "endTime") =
        .error "ParserError: Unknown string format" := by decide
    rw [hd] at hdt
    exact absurd hdt (by simp)
  · exact absurd hk (by decide)

/-- `dbAfterEvents` never touches the `imports` table. -/
theorem dbAfterEvents_imports (db : DB) (h : Hash) (rows : List Row) :
    (dbAfterEvents db h rows).imports = db.imports := by
  unfold dbAfterEvents
  split <;> rfl

/-- `dbAfterEvents` appends the file's event rows (a no-op append when there
are none). -/
theorem dbAfterEvents_events (db : DB) (h : Hash) (rows : List Row) :
    (dbAfterEvents db h rows).events = db.events ++ eventRecsOf h rows := by
  unfold dbAfterEvents
  split
  · rename_i he
    obtain rfl : rows = [] := by simpa using he
    simp [eventRecsOf]
  · rfl

/-- C9: uniqueness of `file_hash` is enforced at the storage layer: every
store state reachable through the store's write interface has pairwise
distinct import hashes, and an INSERT of a second ImportRecord with an
existing hash is rejected rather than applied. -/
theorem file_hash_unique_invariant :
    (∀ db : DB, Reachable db →
      List.Pairwise (fun a b : ImportRec => a.file_hash ≠ b.file_hash) db.imports) ∧
    (∀ (db : DB) (r : ImportRec), already_imported db r.file_hash = true →
      ∀ db', insertImportRec db r ≠ .ok db') := by
  constructor
  · intro db hr
    induction hr with
    | init => simp [emptyDB]
    | insertEvents db rows hr ih => simpa using ih
    | insertImport db db' r hr hok ih =>
      obtain ⟨hfresh, rfl⟩ := insertImportRec_ok_inv _ _ _ hok
      show List.Pairwise (fun a b : ImportRec => a.file_hash ≠ b.file_hash)
        (db.imports ++ [r])
      rw [List.pairwise_append]
      refine ⟨ih, by simp, ?_⟩
      intro a ha b hb
      obtain rfl : b = r := by simpa using hb
      intro hEq
      have : already_imported db b.file_hash = true := by
        unfold already_imported
        rw [List.any_eq_true]
        exact ⟨a, ha, by simp [hEq]⟩
      rw [this] at hfresh
      cases hfresh
  · intro db r himp db' hok
    unfold insertImportRec at hok
    rw [if_pos himp] at hok
    cases hok

/-- C9 exercised: the single-record store is reachable and a duplicate
provenance INSERT against it is rejected. -/
theorem file_hash_unique_invariant_witness :
    List.Pairwise (fun a b : ImportRec => a.file_hash ≠ b.file_hash) wdbR.imports ∧
    ∀ db', insertImportRec wdbR wImp ≠ .ok db' := by
  constructor
  · exact file_hash_unique_invariant.1 wdbR
      (Reachable.insertImport emptyDB wdbR wImp Reachable.init (by decide))
  · exact file_hash_unique_invariant.2 wdbR wImp (by decide)

/-- Import provenance only grows during ingestion. -/
theorem ingestFiles_imports_mono :
    ∀ (files : List SrcFile) (now : Int) (root : String) (db db' : DB) (n s rr : Nat),
      ingestFiles now root db files = .ok (db', n, s, rr) →
      ∀ h, already_imported db h = true → already_imported db' h = true := by
  intro files
  induction files with
  | nil =>
    intro now root db db' n s rr hh h himp
    obtain ⟨rfl, -, -, -⟩ := ingestFiles_nil_inv now root db db' n s rr hh
    exact himp
  | cons f rest ih =>
    intro now root db db' n s rr hh h himp
    rcases ingestFiles_cons_inv now root db db' f rest n s rr hh with
      ⟨-, s0, -, hrec⟩ | ⟨-, db2, len, n0, r0, hnew, -, -, hrec⟩
    · exact ih now root db db' n s0 rr hrec h himp
    · refine ih now root db2 db' n0 s r0 hrec h ?_
      obtain ⟨rows, -, -, -, rfl⟩ := ingestNewFile_ok_inv _ _ _ _ _ _ _ hnew
      unfold already_imported at himp ⊢
      simp only [dbAfterEvents_imports, List.any_append, Bool.or_eq_true]
      exact Or.inl himp

/-- After a completed run every discovered file's hash is recorded. -/
theorem ingestFiles_all_imported :
    ∀ (files : List SrcFile) (now : Int) (root : String) (db db' : DB) (n s rr : Nat),
      ingestFiles now root db files = .ok (db', n, s, rr) →
      ∀ f ∈ files, already_imported db' (sha256_file f.content) = true := by
  intro files
  induction files with
  | nil =>
    intro now root db db' n s rr hh f hf
    simp at hf
  | cons g rest ih =>
    intro now root db db' n s rr hh f hf
    rcases ingestFiles_cons_inv now root db db' g rest n s rr hh with
      ⟨himp, s0, -, hrec⟩ | ⟨-, db2, len, n0, r0, hnew, -, -, hrec⟩
    · rcases List.mem_cons.mp hf with rfl | hf'
      · exact ingestFiles_imports_mono rest now root db db' n s0 rr hrec _ himp
      · exact ih now root db db' n s0 rr hrec f hf'
    · obtain ⟨rows, -, -, -, rfl⟩ := ingestNewFile_ok_inv _ _ _ _ _ _ _ hnew
      rcases List.mem_cons.mp hf with rfl | hf'
      · refine ingestFiles_imports_mono rest now root _ db' n0 s r0 hrec _ ?_
        unfold already_imported
        simp [dbAfterEvents_imports, List.any_append, importRecOf]
      · exact ih now root _ db' n0 s r0 hrec f hf'

/-- A run over files whose hashes are all recorded skips everything and
changes nothing. -/
theorem ingestFiles_skip_all :
    ∀ (files : List SrcFile) (now : Int) (root : String) (db : DB),
      (∀ f ∈ files, already_imported db (sha256_file f.content) = true) →
      ingestFiles now root db files = .ok (db, 0, files.length, 0) := by
  intro files
  induction files with
  | nil => intro now root db hall; rfl
  | cons f rest ih =>
    intro now root db hall
    unfold ingestFiles
    rw [if_pos (hall f (by simp))]
    rw [ih now root db (fun g hg => hall g (by simp [hg]))]
    simp

/-- C3: ingestion is idempotent.  If a run over a file list completes with
summary `sum1`, a second run of `ingest_export` over the same list against
the resulting store leaves the store unchanged — zero additional events,
zero additional ImportRecords — and its `files_skipped` equals the first
run's `files_found`. -/
theorem ingest_export_idempotent :
    ∀ (now now' : Int) (root : String) (db0 db1 : DB) (files : List SrcFile)
      (sum1 : Summary),
      ingest_export now root db0 files = .ok (db1, sum1) →
      ∃ sum2, ingest_export now' root db1 files = .ok (db1, sum2) ∧
        sum2.new_files_imported = 0 ∧ sum2.rows_inserted = 0 ∧
        sum2.files_skipped = sum1.files_found := by
  intro now now' root db0 db1 files sum1 hh
  unfold ingest_export at hh
  split at hh
  · exact absurd hh (by simp)
  · rename_i d n s r hrun
    simp only [Except.ok.injEq, Prod.mk.injEq] at hh
    obtain ⟨rfl, rfl⟩ := hh
    have hall := ingestFiles_all_imported files now root db0 d n s r hrun
    have hskip := ingestFiles_skip_all files now' root d hall
    refine ⟨{ export_root := root, files_found := files.length, new_files_imported := 0,
              files_skipped := files.length, rows_inserted := 0 }, ?_, rfl, rfl, rfl⟩
    unfold ingest_export
    rw [hskip]

/-- C3 exercised on a run over a valid file and an invalid one. -/
theorem ingest_export_idempotent_witness :
    ∃ sum2, ingest_export 1 "/r" wdb2 [okFile, badFile] = .ok (wdb2, sum2) ∧
      sum2.new_files_imported = 0 ∧ sum2.rows_inserted = 0 ∧
      sum2.files_skipped = wsum1.files_found := by
  exact ingest_export_idempotent 0 1 "/r" emptyDB wdb2 [okFile, badFile] wsum1 (by decide)

/-- A file whose content is not valid JSON, or not a JSON array, yields the
empty row list. -/
theorem fileRows_nonarray_nil (c : FileData)
    (hc : (∃ raw, c = FileData.invalid raw) ∨
      (∃ v, c = FileData.valid v ∧ ∀ xs, v ≠ JVal.arr xs)) :
    fileRows c = .ok [] := by
  rcases hc with ⟨raw, rfl⟩ | ⟨v, rfl, hv⟩
  · rfl
  · cases v with
    | arr xs => exact absurd rfl (hv xs)
    | null => rfl
    | bool b => rfl
    | int n => rfl
    | str s => rfl
    | obj fs => rfl

/-- C7: a discovered, not-yet-imported file whose content is not valid JSON
(or is JSON but not an array) contributes no event rows, gets exactly one
ImportRecord with `rows_inserted = 0`, and the run continues with the
remaining files instead of aborting. -/
theorem invalid_json_file_zero_rows :
    ∀ (now : Int) (root : String) (db : DB) (f : SrcFile) (rest : List SrcFile),
      ((∃ raw, f.content = FileData.invalid raw) ∨
        (∃ v, f.content = FileData.valid v ∧ ∀ xs, v ≠ JVal.arr xs)) →
      already_imported db (sha256_file f.content) = false →
      ingestFiles now root db (f :: rest) =
        match ingestFiles now root
            { db with imports := db.imports ++
                [importRecOf now root f.path (sha256_file f.content) 0] } rest with
        | .error e => .error e
        | .ok (d, n, s, r) => .ok (d, n + 1, s, r) := by
  intro now root db f rest hc hfresh
  have hrows := fileRows_nonarray_nil f.content hc
  have hnew : ingestNewFile now root db f (sha256_file f.content) =
      .ok ({ db with imports := db.imports ++
        [importRecOf now root f.path (sha256_file f.content) 0] }, 0) := by
    unfold ingestNewFile
    rw [hrows]
    dsimp only
    unfold insertImportRec
    rw [if_neg (by simp [importRecOf, dbAfterEvents, hfresh])]
    rfl
  conv_lhs => rw [ingestFiles]
  rw [if_neg (by simp [hfresh]), hnew]
  dsimp only
  cases hrec : ingestFiles now root
      { db with imports := db.imports ++
        [importRecOf now root f.path (sha256_file f.content) 0] } rest with
  | error e => rfl
  | ok out =>
    obtain ⟨d, n, s, r⟩ := out
    simp

/-- C7 exercised: the invalid-JSON file gets a zero-row ImportRecord and the
following valid file is still processed. -/
theorem invalid_json_file_zero_rows_witness :
    ingestFiles 0 "/r" emptyDB [badFile, okFile] =
      match ingestFiles 0 "/r"
          { emptyDB with imports := emptyDB.imports ++
              [importRecOf 0 "/r" "/r/endsong_0.json" (sha256_file badFile.content) 0] }
          [okFile] with
      | .error e => .error e
      | .ok (d, n, s, r) => .ok (d, n + 1, s, r) := by
  exact invalid_json_file_zero_rows 0 "/r" emptyDB badFile [okFile]
    (Or.inl ⟨"not valid json", rfl⟩) (by decide)

/-- `keyLE` holds reflexively. -/
theorem keyLEP_refl (a : JVal) : keyLEP a a := by
  cases a <;> simp [keyLEP, keyLE]

instance : IsTotal JVal keyLEP := by
  constructor
  intro a b
  cases a <;> cases b <;> simp [keyLEP, keyLE]
  exact le_total _ _

instance : IsTrans JVal keyLEP := by
  constructor
  intro a b c hab hbc
  cases a <;> cases b <;> cases c <;> simp_all [keyLEP, keyLE]
  exact le_trans hab hbc

/-- Two sorted duplicate-free permutations of each other consisting of string
values coincide (string comparison is antisymmetric). -/
theorem sorted_str_perm_eq :
    ∀ l₁ l₂ : List JVal, l₁.Perm l₂ →
      l₁.Sorted keyLEP → l₂.Sorted keyLEP →
      (∀ x ∈ l₁, ∃ s, x = JVal.str s) →
      l₁ = l₂ := by
  intro l₁
  induction l₁ with
  | nil =>
    intro l₂ hp _ _ _
    exact hp.nil_eq
  | cons a t ih =>
    intro l₂ hp hs₁ hs₂ hstr
    cases l₂ with
    | nil => exact absurd hp.eq_nil (by simp)
    | cons b t₂ =>
      have hbmem : b ∈ a :: t := hp.mem_iff.mpr (by simp)
      have hamem : a ∈ b :: t₂ := hp.mem_iff.mp (by simp)
      have hab : keyLEP a b := by
        rcases List.mem_cons.mp hbmem with hEq | hbt
        · rw [hEq]
          exact keyLEP_refl a
        · exact List.rel_of_sorted_cons hs₁ b hbt
      have hba : keyLEP b a := by
        rcases List.mem_cons.mp hamem with hEq | hat
        · rw [hEq]
          exact keyLEP_refl b
        · exact List.rel_of_sorted_cons hs₂ a hat
      obtain ⟨s, hsa⟩ := hstr a (by simp)
      obtain ⟨s', hsb⟩ : ∃ s', b = JVal.str s' := by
        rcases List.mem_cons.mp hbmem with hEq | hbt
        · exact ⟨s, hEq.trans hsa⟩
        · exact hstr b (by simp [hbt])
      obtain rfl : a = b := by
        rw [hsa, hsb] at hab hba ⊢
        have h1 : s ≤ s' := by simpa [keyLEP, keyLE] using hab
        have h2 : s' ≤ s := by simpa [keyLEP, keyLE] using hba
        rw [le_antisymm h1 h2]
      rw [ih t₂ hp.cons_inv hs₁.of_cons hs₂.of_cons
        (fun x hx => hstr x (by simp [hx]))]

/-- `groupbySum` is invariant under permutation of its input rows when all
keys are strings: the keys are sorted canonically and the per-key totals are
order-independent sums. -/
theorem groupbySum_perm_eq (rows₁ rows₂ : List (JVal × ℚ)) (hp : rows₁.Perm rows₂)
    (hstr : ∀ p ∈ rows₁, ∃ s, p.1 = JVal.str s) :
    groupbySum rows₁ = groupbySum rows₂ := by
  have hkeys : ((rows₁.map Prod.fst).dedup).Perm ((rows₂.map Prod.fst).dedup) :=
    (hp.map Prod.fst).dedup
  have hsp : (List.insertionSort keyLEP (rows₁.map Prod.fst).dedup).Perm
      (List.insertionSort keyLEP (rows₂.map Prod.fst).dedup) :=
    ((List.perm_insertionSort keyLEP _).trans hkeys).trans
      (List.perm_insertionSort keyLEP _).symm
  have heq : List.insertionSort keyLEP (rows₁.map Prod.fst).dedup =
      List.insertionSort keyLEP (rows₂.map Prod.fst).dedup := by
    refine sorted_str_perm_eq _ _ hsp (List.sorted_insertionSort keyLEP _)
      (List.sorted_insertionSort keyLEP _) ?_
    intro x hx
    have hx' : x ∈ rows₁.map Prod.fst :=
      List.mem_dedup.mp ((List.mem_insertionSort keyLEP).mp hx)
    obtain ⟨p, hpmem, rfl⟩ := List.mem_map.mp hx'
    exact hstr p hpmem
  unfold groupbySum
  rw [heq]
  refine List.map_congr_left ?_
  intro k hk
  have hfil : ((rows₁.filter (fun p => p.1 == k)).map Prod.snd).Perm
      ((rows₂.filter (fun p => p.1 == k)).map Prod.snd) := (hp.filter _).map _
  rw [hfil.sum_eq]

/-- C8 is false as stated: artists "Zed" then "Abe", tied at ten minutes,
come out as "Abe" before "Zed" — the `groupby` sorts group keys
alphabetically before the minutes sort, so the first-encountered artist does
not win the earlier position. -/
theorem top_artists_tie_counterexample :
    top_art [evZed, evAbe] = [(JVal.str "Abe", 10), (JVal.str "Zed", 10)] ∧
    ¬ top_art [evZed, evAbe] = [(JVal.str "Zed", 10), (JVal.str "Abe", 10)] := by
  constructor
  · with_unfolding_all decide
  · with_unfolding_all decide

/-- C8 amended: tied artists appear in ascending alphabetical order of
artist name, not first-encountered order — the aggregation's output (keys
sorted by `groupby`, a stable descending sort on summed minutes, truncation
to the top 15) is invariant under any permutation of the input events,
whenever the stored artist values are text or NULL as the exports produce. -/
theorem top_artists_order_invariant :
    ∀ (evs evs' : List EventRec), evs.Perm evs' →
      (∀ e ∈ evs, isStrOrNull e.row.artist_name = true) →
      top_art evs = top_art evs' := by
  intro evs evs' hp hstr
  unfold top_art
  have h1 : (dropnaArtist (dfArtistMinutes evs)).Perm
      (dropnaArtist (dfArtistMinutes evs')) := (hp.map _).filter _
  have h2 : groupbySum (dropnaArtist (dfArtistMinutes evs)) =
      groupbySum (dropnaArtist (dfArtistMinutes evs')) := by
    refine groupbySum_perm_eq _ _ h1 ?_
    intro p hpmem
    have hne : (p.1 != JVal.null) = true := (List.mem_filter.mp hpmem).2
    have hmem2 : p ∈ dfArtistMinutes evs := (List.mem_filter.mp hpmem).1
    obtain ⟨e, he, rfl⟩ := List.mem_map.mp hmem2
    have hsn := hstr e he
    cases hart : e.row.artist_name with
    | null => rw [hart] at hne; simp at hne
    | bool b => rw [hart] at hsn; simp [isStrOrNull] at hsn
    | int n => rw [hart] at hsn; simp [isStrOrNull] at hsn
    | str s => exact ⟨s, rfl⟩
    | arr xs => rw [hart] at hsn; simp [isStrOrNull] at hsn
    | obj fs => rw [hart] at hsn; simp [isStrOrNull] at hsn
  rw [h2]

/-- C8 amended, exercised: the two orders of the tied events produce the same
output. -/
theorem top_artists_order_invariant_witness :
    top_art [evZed, evAbe] = top_art [evAbe, evZed] :=
  top_artists_order_invariant [evZed, evAbe] [evAbe, evZed] (by decide) (by decide)

/-- A prefix of an appended list is a prefix of the first part or extends
it. -/
theorem prefix_of_append {α : Type} :
    ∀ (l₁ l₂ p : List α), p <+: l₁ ++ l₂ →
      p <+: l₁ ∨ ∃ q, p = l₁ ++ q ∧ q <+: l₂ := by
  intro l₁
  induction l₁ with
  | nil =>
    intro l₂ p hh
    exact Or.inr ⟨p, rfl, hh⟩
  | cons a t ih =>
    intro l₂ p hh
    rw [List.cons_append] at hh
    rcases List.prefix_cons_iff.mp hh with rfl | ⟨q, rfl, hq⟩
    · exact Or.inl List.nil_prefix
    · rcases ih l₂ q hq with h1 | ⟨q', rfl, hq'⟩
      · exact Or.inl (List.cons_prefix_cons.mpr ⟨rfl, h1⟩)
      · exact Or.inr ⟨q', by simp, hq'⟩

/-- An event INSERT leaves the durable state untouched. -/
theorem stepOp_durable_insertEvents (s : TxState) (rows : List EventRec) :
    (stepOp s (.insertEvents rows)).durable = s.durable := by
  unfold stepOp
  split
  · rfl
  · rfl

/-- A provenance INSERT leaves the durable state untouched (whether it
succeeds or violates the constraint). -/
theorem stepOp_durable_insertImport (s : TxState) (r : ImportRec) :
    (stepOp s (.insertImport r)).durable = s.durable := by
  unfold stepOp
  split
  · rfl
  · dsimp only
    split <;> rfl

/-- A successful provenance INSERT on a non-failed connection. -/
theorem stepOp_insertImport_ok (cur dur : DB) (r : ImportRec) (db' : DB)
    (hok : insertImportRec cur r = .ok db') :
    stepOp { cur := cur, durable := dur, failed := false } (.insertImport r) =
      { cur := db', durable := dur, failed := false } := by
  unfold stepOp
  rw [if_neg (by simp)]
  dsimp only
  rw [hok]

/-- A fresh hash makes the provenance INSERT succeed by appending. -/
theorem insertImportRec_fresh (db : DB) (r : ImportRec)
    (hfresh : already_imported db r.file_hash = false) :
    insertImportRec db r = .ok { db with imports := db.imports ++ [r] } := by
  unfold insertImportRec
  rw [if_neg (by simp [hfresh])]

/-- `runOps` splits over appended statement lists. -/
theorem runOps_append (s : TxState) (ops₁ ops₂ : List Op) :
    runOps s (ops₁ ++ ops₂) = runOps (runOps s ops₁) ops₂ := by
  unfold runOps
  rw [List.foldl_append]

/-- The `imports` table after one file's statements. -/
theorem applyFile_imports (db : DB) (now : Int) (root path : String) (h : Hash)
    (rows : List Row) :
    (applyFile db now root path h rows).imports =
      db.imports ++ [importRecOf now root path h rows.length] := by
  unfold applyFile
  simp [dbAfterEvents_imports]

/-- The `events` table after one file's statements. -/
theorem applyFile_events (db : DB) (now : Int) (root path : String) (h : Hash)
    (rows : List Row) :
    (applyFile db now root path h rows).events = db.events ++ eventRecsOf h rows := by
  unfold applyFile
  simp [dbAfterEvents_events]

/-- A false `already_imported` answer means no stored provenance carries the
hash. -/
theorem already_imported_false_iff (db : DB) (h : Hash) :
    already_imported db h = false ↔ ∀ q ∈ db.imports, q.file_hash ≠ h := by
  unfold already_imported
  rw [List.any_eq_false]
  simp

/-- In a consistent store, a hash with no ImportRecord has no events
either. -/
theorem consistent_no_event (db : DB) (h : Hash) (hc : consistent db)
    (hfresh : already_imported db h = false) :
    ∀ e ∈ db.events, e.source_file_hash ≠ h := by
  intro e he hEq
  obtain ⟨r, hr, hrh⟩ := hc.2.1 e he
  exact (already_imported_false_iff db h).mp hfresh r hr (hrh.trans hEq)

/-- Committing one fresh file's rows and provenance together preserves store
consistency. -/
theorem consistent_applyFile (db : DB) (now : Int) (root path : String)
    (h : Hash) (rows : List Row) (hc : consistent db)
    (hfresh : already_imported db h = false) :
    consistent (applyFile db now root path h rows) := by
  obtain ⟨hpw, hev, hcount⟩ := hc
  have hfresh' := (already_imported_false_iff db h).mp hfresh
  have hnoev := consistent_no_event db h ⟨hpw, hev, hcount⟩ hfresh
  refine ⟨?_, ?_, ?_⟩
  · rw [applyFile_imports]
    rw [List.pairwise_append]
    refine ⟨hpw, by simp, ?_⟩
    intro a ha b hb
    obtain rfl : b = importRecOf now root path h rows.length := by simpa using hb
    simpa [importRecOf] using hfresh' a ha
  · intro e he
    rw [applyFile_events] at he
    rcases List.mem_append.mp he with he' | he'
    · obtain ⟨r, hr, hrh⟩ := hev e he'
      exact ⟨r, by rw [applyFile_imports]; exact List.mem_append_left _ hr, hrh⟩
    · obtain ⟨rw0, hrw, rfl⟩ := List.mem_map.mp he'
      refine ⟨importRecOf now root path h rows.length,
        by rw [applyFile_imports]; exact List.mem_append_right _ (by simp), ?_⟩
      simp [importRecOf]
  · intro r hr
    rw [applyFile_events, List.countP_append]
    rw [applyFile_imports] at hr
    rcases List.mem_append.mp hr with hr' | hr'
    · have h1 := hcount r hr'
      have h2 : (eventRecsOf h rows).countP
          (fun e => e.source_file_hash == r.file_hash) = 0 := by
        rw [List.countP_eq_zero]
        intro e he
        obtain ⟨rw0, hrw, rfl⟩ := List.mem_map.mp he
        simpa using fun hEq => hfresh' r hr' hEq.symm
      omega
    · obtain rfl : r = importRecOf now root path h rows.length := by simpa using hr'
      have h1 : db.events.countP
          (fun e => e.source_file_hash ==
            (importRecOf now root path h rows.length).file_hash) = 0 := by
        rw [List.countP_eq_zero]
        intro e he
        simpa [importRecOf] using hnoev e he
      have h2 : (eventRecsOf h rows).countP
          (fun e => e.source_file_hash ==
            (importRecOf now root path h rows.length).file_hash) =
          (eventRecsOf h rows).length := by
        rw [List.countP_eq_length]
        intro e he
        obtain ⟨rw0, hrw, rfl⟩ := List.mem_map.mp he
        simp [importRecOf]
      rw [h1, h2]
      simp [importRecOf, eventRecsOf]

/-- Executing one fresh file's statement block commits exactly the rows and
the provenance record, atomically. -/
theorem runOps_fileOps (s : TxState) (now : Int) (root path : String)
    (h : Hash) (rows : List Row) (hf : s.failed = false)
    (hfresh : already_imported s.cur h = false) :
    runOps s (fileOps now root path h rows) =
      { cur := applyFile s.cur now root path h rows
        durable := applyFile s.cur now root path h rows
        failed := false } := by
  obtain ⟨cur, dur, fl⟩ := s
  dsimp only at hf hfresh ⊢
  subst hf
  by_cases he : rows.isEmpty
  · obtain rfl : rows = [] := by simpa using he
    have hok := insertImportRec_fresh cur (importRecOf now root path h 0)
      (by simpa [importRecOf] using hfresh)
    have hr : runOps { cur := cur, durable := dur, failed := false }
        [Op.insertImport (importRecOf now root path h 0), Op.commit] =
        stepOp (stepOp { cur := cur, durable := dur, failed := false }
          (Op.insertImport (importRecOf now root path h 0))) Op.commit := rfl
    show runOps { cur := cur, durable := dur, failed := false }
        [Op.insertImport (importRecOf now root path h 0), Op.commit] = _
    rw [hr, stepOp_insertImport_ok cur dur _ _ hok]
    rfl
  · have h1 : fileOps now root path h rows =
        [Op.insertEvents (eventRecsOf h rows),
         Op.insertImport (importRecOf now root path h rows.length), Op.commit] := by
      unfold fileOps
      rw [if_neg he]
      rfl
    rw [h1]
    have hok := insertImportRec_fresh
      { cur with events := cur.events ++ eventRecsOf h rows }
      (importRecOf now root path h rows.length)
      (by simpa [importRecOf, already_imported] using hfresh)
    have hr : runOps { cur := cur, durable := dur, failed := false }
        [Op.insertEvents (eventRecsOf h rows),
         Op.insertImport (importRecOf now root path h rows.length), Op.commit] =
        stepOp (stepOp (stepOp { cur := cur, durable := dur, failed := false }
          (Op.insertEvents (eventRecsOf h rows)))
          (Op.insertImport (importRecOf now root path h rows.length))) Op.commit := rfl
    have s0 : stepOp { cur := cur, durable := dur, failed := false }
        (Op.insertEvents (eventRecsOf h rows)) =
        { cur := { cur with events := cur.events ++ eventRecsOf h rows }
          durable := dur, failed := false } := rfl
    rw [hr, s0, stepOp_insertImport_ok _ dur _ _ hok]
    have hda : dbAfterEvents cur h rows =
        { cur with events := cur.events ++ eventRecsOf h rows } := by
      unfold dbAfterEvents
      rw [if_neg he]
    have hAp : applyFile cur now root path h rows =
        { imports := cur.imports ++ [importRecOf now root path h rows.length]
          events := cur.events ++ eventRecsOf h rows } := by
      unfold applyFile
      rw [hda]
    rw [hAp]
    rfl

/-- Any prefix of one fresh file's statement block leaves a consistent
durable state: the durable state is untouched until the commit, and the
commit lands the complete unit. -/
theorem consistent_runOps_fileOps_prefix (s : TxState) (now : Int)
    (root path : String) (h : Hash) (rows : List Row)
    (hf : s.failed = false) (hcd : s.cur = s.durable) (hc : consistent s.durable)
    (hfresh : already_imported s.cur h = false) :
    ∀ pfx, pfx <+: fileOps now root path h rows →
      consistent (runOps s pfx).durable := by
  have hccur : consistent s.cur := by rw [hcd]; exact hc
  intro pfx hpfx
  by_cases he : rows.isEmpty
  · have h1 : fileOps now root path h rows =
        [Op.insertImport (importRecOf now root path h rows.length), Op.commit] := by
      unfold fileOps
      rw [if_pos he]
      rfl
    rw [h1] at hpfx
    rcases List.prefix_cons_iff.mp hpfx with rfl | ⟨t, rfl, ht⟩
    · simpa [runOps] using hc
    · rcases List.prefix_cons_iff.mp ht with rfl | ⟨t2, rfl, ht2⟩
      · show consistent (stepOp s (Op.insertImport _)).durable
        rw [stepOp_durable_insertImport]
        exact hc
      · obtain rfl : t2 = [] := List.prefix_nil.mp ht2
        have hfull := runOps_fileOps s now root path h rows hf hfresh
        rw [h1] at hfull
        rw [hfull]
        exact consistent_applyFile s.cur now root path h rows hccur hfresh
  · have h1 : fileOps now root path h rows =
        [Op.insertEvents (eventRecsOf h rows),
         Op.insertImport (importRecOf now root path h rows.length), Op.commit] := by
      unfold fileOps
      rw [if_neg he]
      rfl
    rw [h1] at hpfx
    rcases List.prefix_cons_iff.mp hpfx with rfl | ⟨t, rfl, ht⟩
    · simpa [runOps] using hc
    · rcases List.prefix_cons_iff.mp ht with rfl | ⟨t2, rfl, ht2⟩
      · show consistent (stepOp s (Op.insertEvents _)).durable
        rw [stepOp_durable_insertEvents]
        exact hc
      · rcases List.prefix_cons_iff.mp ht2 with rfl | ⟨t3, rfl, ht3⟩
        · show consistent (stepOp (stepOp s (Op.insertEvents _))
            (Op.insertImport _)).durable
          rw [stepOp_durable_insertImport, stepOp_durable_insertEvents]
          exact hc
        · obtain rfl : t3 = [] := List.prefix_nil.mp ht3
          have hfull := runOps_fileOps s now root path h rows hf hfresh
          rw [h1] at hfull
          rw [hfull]
          exact consistent_applyFile s.cur now root path h rows hccur hfresh

/-- Every prefix of the statement trace of an ingestion run leaves a
consistent durable state. -/
theorem ingestOps_prefix_consistent :
    ∀ (files : List SrcFile) (now : Int) (root : String) (s : TxState),
      s.failed = false → s.cur = s.durable → consistent s.durable →
      ∀ pfx, pfx <+: ingestOps now root s.cur files →
        consistent (runOps s pfx).durable := by
  intro files
  induction files with
  | nil =>
    intro now root s hf hcd hc pfx hpfx
    obtain rfl : pfx = [] := List.prefix_nil.mp (by simpa [ingestOps] using hpfx)
    simpa [runOps] using hc
  | cons f rest ih =>
    intro now root s hf hcd hc pfx hpfx
    by_cases himp : already_imported s.cur (sha256_file f.content) = true
    · rw [show ingestOps now root s.cur (f :: rest) = ingestOps now root s.cur rest from by
        conv_lhs => rw [ingestOps]
        rw [if_pos himp]] at hpfx
      exact ih now root s hf hcd hc pfx hpfx
    · have himp' : already_imported s.cur (sha256_file f.content) = false := by
        simpa using himp
      rw [show ingestOps now root s.cur (f :: rest) =
          (match fileRows f.content with
           | .error _ => []
           | .ok rows =>
             fileOps now root f.path (sha256_file f.content) rows ++
               ingestOps now root
                 (applyFile s.cur now root f.path (sha256_file f.content) rows) rest)
          from by
        conv_lhs => rw [ingestOps]
        rw [if_neg himp]] at hpfx
      cases hrows : fileRows f.content with
      | error e =>
        rw [hrows] at hpfx
        obtain rfl : pfx = [] := List.prefix_nil.mp (by simpa using hpfx)
        simpa [runOps] using hc
      | ok rows =>
        rw [hrows] at hpfx
        dsimp only at hpfx
        rcases prefix_of_append _ _ _ hpfx with hpre | ⟨q, rfl, hq⟩
        · exact consistent_runOps_fileOps_prefix s now root f.path _ rows
            hf hcd hc himp' pfx hpre
        · rw [runOps_append, runOps_fileOps s now root f.path _ rows hf himp']
          exact ih now root _ rfl rfl
            (consistent_applyFile s.cur now root f.path _ rows
              (by rw [hcd]; exact hc) himp') q hq

/-- C1: per-file atomicity of ingestion.  Along every prefix of the
statement trace an ingestion run issues against a fresh store, the durable
(committed) state is consistent: import hashes are unique, every stored
event's file hash has its ImportRecord, and every ImportRecord's
`rows_inserted` equals the number of stored events for its file — so the
accepted rows and the single provenance entry of a file become durably
visible together or not at all. -/
theorem ingest_export_atomic_unit :
    ∀ (now : Int) (root : String) (files : List SrcFile) (pfx : List Op),
      pfx <+: ingestOps now root emptyDB files →
      consistent (runOps { cur := emptyDB, durable := emptyDB, failed := false } pfx).durable :=
  fun now root files pfx hp =>
    ingestOps_prefix_consistent files now root
      { cur := emptyDB, durable := emptyDB, failed := false }
      rfl rfl (by decide) pfx hp

/-- C1 exercised on the two-statement prefix of a concrete run (mid-file
crash point: events inserted, provenance and commit still pending). -/
theorem ingest_export_atomic_unit_witness :
    consistent (runOps { cur := emptyDB, durable := emptyDB, failed := false }
      (List.take 2 (ingestOps 0 "/r" emptyDB [okFile, badFile]))).durable :=
  ingest_export_atomic_unit 0 "/r" [okFile, badFile] _ (List.take_prefix 2 _)

end SpotifyTool
